import Mathlib

/-!
# Verification of the edgedb-go codec engine and query execution flow

Shallow embedding of the core of the `sebastiean/edgedb-go` driver:

* the object (compound) decode algorithm of `codecs.objectDecoder.Decode`
  together with the optional/missing-field machinery
  (`optionalObjectDecoder`, `OptionalDecoder`, the sentinel length),
* the codec construction check of `codecs.buildObjectDecoder` with its
  `optionalTypeNameLookup` table,
* the execution flow of `granularFlow` / `pesimistic` / `execute` /
  `optimistic` (codec cache, descriptor cache, message patterns, the
  `ErrorZeroResults` policy, destination truncation),
* the script flow `execScriptFlow` (state check, response draining on
  `ErrorResponse`).

Byte buffers (`buff.Reader` / raw `[]byte` with the `protocol.Pop*`
helpers) are modelled as lists of natural numbers read big-endian; a Go
panic on a short buffer is modelled as a distinguished decode error.
-/

namespace Edb

/-- A wire buffer: the remaining bytes of a `buff.Reader`. -/
abbrev Bytes := List Nat

/-- `Reader.PopUint32` / `protocol.PopUint32`: read four bytes big-endian.
`none` models the Go panic on a short buffer. -/
def popUint32 : Bytes → Option (Nat × Bytes)
  | b0 :: b1 :: b2 :: b3 :: rest => some (((b0 * 256 + b1) * 256 + b2) * 256 + b3, rest)
  | _ => none

/-- Big-endian encoding of a 32-bit value, as pushed by `PushUint32`. -/
def toBE32 (n : Nat) : Bytes :=
  [n / 16777216 % 256, n / 65536 % 256, n / 256 % 256, n % 256]

/-- The reserved all-ones 32-bit element length denoting a missing field
(`0xffffffff` in `objectDecoder.Decode`). -/
def sentinel : Nat := 4294967295

/-- Structured decode errors of the codec layer.  `countMismatch` models
the error `"wrong number of object fields: expected %v, got %v"` with its
two counts; `notOptionalCast` models the panic of the failed
`field.decoder.(OptionalDecoder)` type assertion; `shortRead` models the
panics of `Discard`/`PopUint32`/`PopSlice` on a buffer shorter than
requested. -/
inductive Err where
  | countMismatch (expected actual : Nat)
  | notOptionalCast
  | shortRead
  deriving DecidableEq, Repr

/-- A decoded value as written into caller memory.  `absent` is the state
produced by a `DecodeMissing` call (e.g. `SetMissing(true)`), distinct by
constructor from every present value. -/
inductive Val where
  | absent
  | intV (n : Nat)
  | strV (s : Bytes)
  | objV (fs : List Val)
  deriving Repr

/-- The decoder tree compiled by the codec builder.  `objectDec` embeds
`codecs.objectDecoder` (its field list, in compiled order);
`optionalObjectDec` embeds `codecs.optionalObjectDecoder`.  The scalar
leaves model the string and int32 codecs together with their
missing-capable variants (the optional scalar decoders are not part of the
provided sources; they are modelled from the spec: a non-required field's
decoder "explicitly supports missing encoding", decoding a present payload
exactly as the plain codec does and writing the absent state on a missing
field). -/
inductive Dec where
  | strCodec
  | optionalStrCodec
  | int32Codec
  | optionalInt32Codec
  | objectDec (fields : List Dec)
  | optionalObjectDec (fields : List Dec)
  deriving Repr

/-- Whether a decoder satisfies the Go `OptionalDecoder` interface
(i.e. has a `DecodeMissing` method). -/
def isOptionalDec : Dec → Bool
  | .optionalStrCodec => true
  | .optionalInt32Codec => true
  | .optionalObjectDec _ => true
  | _ => false

/-- `DecodeMissing` through the `field.decoder.(OptionalDecoder)` type
assertion: writes the absent state for an optional decoder and panics
(`notOptionalCast`) otherwise. -/
def decodeMissing (d : Dec) : Except Err Val :=
  if isOptionalDec d then .ok .absent else .error .notOptionalCast

mutual

/-- `Decoder.Decode`: decode one value from a buffer, returning the value
written to the destination and the bytes left unread in the (sub-)buffer.
The object branches embed `objectDecoder.Decode` /
`optionalObjectDecoder.Decode` (the latter first calls
`SetMissing(false)`, which only affects the presence flag, then runs the
plain object decode). -/
def decode : Dec → Bytes → Except Err (Val × Bytes)
  | .strCodec, b => .ok (.strV b, [])
  | .optionalStrCodec, b => .ok (.strV b, [])
  | .int32Codec, b =>
    match popUint32 b with
    | none => .error .shortRead
    | some (v, l) => .ok (.intV v, l)
  | .optionalInt32Codec, b =>
    match popUint32 b with
    | none => .error .shortRead
    | some (v, l) => .ok (.intV v, l)
  | .objectDec fields, b =>
    match popUint32 b with
    | none => .error .shortRead
    | some (count, rest) =>
      if count = fields.length then
        match decodeFields fields rest with
        | .error e => .error e
        | .ok (vs, l) => .ok (.objV vs, l)
      else .error (.countMismatch fields.length count)
  | .optionalObjectDec fields, b =>
    match popUint32 b with
    | none => .error .shortRead
    | some (count, rest) =>
      if count = fields.length then
        match decodeFields fields rest with
        | .error e => .error e
        | .ok (vs, l) => .ok (.objV vs, l)
      else .error (.countMismatch fields.length count)

/-- The per-field loop of `objectDecoder.Decode`: for each compiled field,
discard the 4 reserved bytes, pop the 4-byte element length; on the
sentinel invoke the field decoder's `DecodeMissing`, otherwise hand the
child exactly the declared number of bytes (`r.PopSlice(elmLen)`) and
continue past them in the parent, discarding whatever the child left
unconsumed in its sub-buffer. -/
def decodeFields : List Dec → Bytes → Except Err (List Val × Bytes)
  | [], b => .ok ([], b)
  | d :: rest, b =>
    match popUint32 (b.drop 4) with
    | none => .error .shortRead
    | some (elmLen, tl) =>
      if elmLen = sentinel then
        match decodeMissing d with
        | .error e => .error e
        | .ok v =>
          match decodeFields rest tl with
          | .error e => .error e
          | .ok (vs, l) => .ok (v :: vs, l)
      else
        if elmLen ≤ tl.length then
          match decode d (tl.take elmLen) with
          | .error e => .error e
          | .ok (v, _) =>
            match decodeFields rest (tl.drop elmLen) with
            | .error e => .error e
            | .ok (vs, l) => .ok (v :: vs, l)
        else .error .shortRead

end

/-- `objectDecoder.Decode` on its own buffer: pop the declared element
count, compare against the compiled field count, then run the field loop. -/
def objectDecode (fields : List Dec) (b : Bytes) : Except Err (Val × Bytes) :=
  decode (.objectDec fields) b

theorem popUint32_toBE32 (n : Nat) (h : n < 4294967296) (r : Bytes) :
    popUint32 (toBE32 n ++ r) = some (n, r) := by
  simp only [toBE32, List.cons_append, List.nil_append, popUint32]
  congr 1
  congr 1
  omega

/-- C2: for every compound (object) value, `objectDecoder.Decode` reads the
declared element count and, whenever it differs from the compiled field
count, fails with the distinguished count-mismatch error carrying the
expected (compiled) and actual (declared) counts; and when such a compound
is a field of an enclosing object, the enclosing decode hands it exactly
its declared element length, so the failure is the same whatever bytes
follow the declared compound length in the parent buffer (no bytes beyond
it are consumed). -/
theorem objectDecode_count_mismatch (fields : List Dec) (n : Nat) (body btl : Bytes)
    (hpop : popUint32 body = some (n, btl)) (hne : n ≠ fields.length) :
    objectDecode fields body = .error (.countMismatch fields.length n)
    ∧ ∀ (w x y z : Nat) (rest : List Dec) (tail : Bytes),
        body.length ≠ sentinel → body.length < 4294967296 →
        decodeFields (Dec.objectDec fields :: rest)
          (w :: x :: y :: z :: (toBE32 body.length ++ body ++ tail))
          = .error (.countMismatch fields.length n) := by
  have h1 : objectDecode fields body = .error (.countMismatch fields.length n) := by
    simp only [objectDecode, decode, hpop]
    rw [if_neg hne]
  refine ⟨h1, ?_⟩
  intro w x y z rest tail hs hlt
  have hp : popUint32 ((w :: x :: y :: z ::
      (toBE32 body.length ++ body ++ tail)).drop 4)
      = some (body.length, body ++ tail) := by
    simpa [List.append_assoc] using popUint32_toBE32 body.length hlt (body ++ tail)
  simp only [decodeFields, hp]
  rw [if_neg hs, if_pos (by simp)]
  rw [List.take_left]
  simp only [objectDecode] at h1
  simp [h1]

theorem objectDecode_count_mismatch_witness :
    objectDecode [Dec.int32Codec] [0, 0, 0, 2] = Except.error (Err.countMismatch 1 2)
    ∧ decodeFields [Dec.objectDec [Dec.int32Codec]]
        (9 :: 9 :: 9 :: 9 :: (toBE32 (List.length ([0, 0, 0, 2] : Bytes))
          ++ [0, 0, 0, 2] ++ []))
        = Except.error (Err.countMismatch 1 2) :=
  have h := objectDecode_count_mismatch [Dec.int32Codec] 2 [0, 0, 0, 2] []
    (by decide) (by decide)
  ⟨h.1, h.2 9 9 9 9 [] [] (by decide) (by decide)⟩

/-- C7: during compound decode, every nested field decoder is handed a
buffer holding exactly its declared element length (the `elmLen`-byte
`PopSlice`, so it can never read past it), and the parent continues past
the full declared length (`tl.drop elmLen`) regardless of how many bytes
the nested decoder left unconsumed in its sub-buffer (the second component
of the child result is discarded by the match). -/
theorem field_decode_bounded (d : Dec) (rest : List Dec) (b tl : Bytes) (elmLen : Nat)
    (hpop : popUint32 (b.drop 4) = some (elmLen, tl))
    (hs : elmLen ≠ sentinel) (hfit : elmLen ≤ tl.length) :
    (decodeFields (d :: rest) b
      = match decode d (tl.take elmLen) with
        | .error e => .error e
        | .ok (v, _) => (decodeFields rest (tl.drop elmLen)).map
            (fun p => (v :: p.1, p.2)))
    ∧ (tl.take elmLen).length = elmLen := by
  constructor
  · simp only [decodeFields, hpop]
    rw [if_neg hs, if_pos hfit]
    cases hdec : decode d (tl.take elmLen) with
    | error e => rfl
    | ok p =>
      obtain ⟨v, l⟩ := p
      cases hrec : decodeFields rest (tl.drop elmLen) with
      | error e => rfl
      | ok q => rfl
  · simpa using hfit

theorem field_decode_bounded_witness :
    (decodeFields [Dec.int32Codec] [0, 0, 0, 0, 0, 0, 0, 4, 0, 0, 0, 5]
      = match decode Dec.int32Codec (List.take 4 [0, 0, 0, 5]) with
        | Except.error e => Except.error e
        | Except.ok (v, _) => (decodeFields [] (List.drop 4 [0, 0, 0, 5])).map
            (fun p => (v :: p.1, p.2)))
    ∧ (List.take 4 ([0, 0, 0, 5] : Bytes)).length = 4 :=
  field_decode_bounded Dec.int32Codec [] [0, 0, 0, 0, 0, 0, 0, 4, 0, 0, 0, 5]
    [0, 0, 0, 5] 4 (by decide) (by decide) (by decide)

/-- C3: in the field loop of `objectDecoder.Decode`, an element length
equal to the all-ones sentinel invokes the field decoder's
`DecodeMissing` instead of its normal decode, leaving the destination
field in the explicitly absent state; a present value of declared length
zero is decoded normally on an empty sub-buffer, yielding a present-empty
value (for the string codec, the empty string); and the absent state is
distinct from the present-empty value. -/
theorem sentinel_missing_vs_present_empty :
    (∀ (d : Dec) (rest : List Dec) (b tl : Bytes),
        isOptionalDec d = true →
        popUint32 (b.drop 4) = some (sentinel, tl) →
        decodeFields (d :: rest) b
          = (decodeFields rest tl).map (fun p => (Val.absent :: p.1, p.2)))
    ∧ (∀ (rest : List Dec) (b tl : Bytes),
        popUint32 (b.drop 4) = some (0, tl) →
        decodeFields (Dec.optionalStrCodec :: rest) b
          = (decodeFields rest tl).map (fun p => (Val.strV [] :: p.1, p.2)))
    ∧ Val.strV [] ≠ Val.absent := by
  refine ⟨?_, ?_, by intro h; cases h⟩
  · intro d rest b tl hopt hpop
    simp only [decodeFields, hpop]
    rw [if_pos trivial]
    simp only [decodeMissing, hopt, if_true]
    cases decodeFields rest tl with
    | error e => rfl
    | ok p => rfl
  · intro rest b tl hpop
    simp only [decodeFields, hpop]
    rw [if_neg (by simp [sentinel]), if_pos (Nat.zero_le _)]
    simp only [List.take_zero, List.drop_zero, decode]
    cases decodeFields rest tl with
    | error e => rfl
    | ok p => rfl

theorem sentinel_missing_vs_present_empty_witness :
    decodeFields [Dec.optionalStrCodec] [9, 9, 9, 9, 255, 255, 255, 255]
      = Except.ok ([Val.absent], [])
    ∧ decodeFields [Dec.optionalStrCodec] [9, 9, 9, 9, 0, 0, 0, 0]
      = Except.ok ([Val.strV []], []) := by
  constructor
  · rw [sentinel_missing_vs_present_empty.1 Dec.optionalStrCodec []
      [9, 9, 9, 9, 255, 255, 255, 255] [] (by decide) (by decide)]
    rfl
  · rw [sentinel_missing_vs_present_empty.2.1 []
      [9, 9, 9, 9, 0, 0, 0, 0] [] (by decide)]
    rfl


/-! ## Execution flow (`granular_flow.go`) -/

/-- Expected result cardinality of a query (`q.expCard`). -/
inductive Card where
  | one
  | many
  deriving DecidableEq, Repr

/-- The per-call query data relevant to the execution flow. -/
structure Query where
  expCard : Card
  deriving DecidableEq, Repr

/-- Modelled from the spec: `query.flat` is not part of the provided
sources (only its call sites are).  Spec §4.6 ties the direct
single-destination write to expected cardinality "one" and the
truncate-and-append handling to cardinality "many", so a query is flat
exactly when its expected cardinality is "one". -/
def Query.flat (q : Query) : Bool := q.expCard = Card.one

/-- One message of a response stream, as framed by `protocol.PopMessage`
and dispatched on its type byte.  `data` carries the row payload that is
handed to the output codec after the skipped header fields; `unknown`
stands for any message type not handled by the switch. -/
inductive RespMsg where
  | data (payload : Bytes)
  | commandComplete
  | readyForCommand
  | errorResponse (e : Nat)
  | unknown (t : Nat)
  deriving DecidableEq, Repr

/-- How a flow call ends: the distinguished `ErrorZeroResults`, a decoded
server error (`decodeError` of an `ErrorResponse`), or the panic raised on
an unexpected message type. -/
inductive FlowErr where
  | zeroResults
  | serverErr (e : Nat)
  | panicUnexpected (t : Nat)
  deriving DecidableEq, Repr

/-- The observable outcome of `execute`/`optimistic`: the returned error
(if any), the value of the slice destination, and the value of the flat
destination. -/
structure ExecOut (Row : Type) where
  result : Except FlowErr Unit
  manyDest : List Row
  singleDest : Row
  deriving Repr

/-- The shared response loop of `execute` and `optimistic`
(`granular_flow.go` lines 202–238 and 274–312): `err` starts as
`ErrorZeroResults` (tracked here as `gotData = false`) and is cleared by
the first `Data` message; a `Data` row is appended to the working slice
`o` (non-flat) or decoded straight into the destination (flat);
`ErrorResponse` returns the decoded server error at once — for a non-flat
query the destination has already been truncated by `out.SetLen(0)` and
`out.Set(o)` never runs, so it is left empty; an unrecognized message
type panics.  At the end of the stream the working slice is written back
and `err` (still `ErrorZeroResults` when no `Data` arrived) is returned. -/
def execLoop {Row : Type} (decodeRow : Bytes → Row) (flat : Bool) (dest0 : List Row) :
    List RespMsg → List Row → Row → Bool → ExecOut Row
  | [], o, s, gotData =>
    { result := if gotData then .ok () else .error .zeroResults
      manyDest := if flat then dest0 else o
      singleDest := s }
  | m :: rest, o, s, gotData =>
    match m with
    | .data p =>
      if flat then execLoop decodeRow flat dest0 rest o (decodeRow p) true
      else execLoop decodeRow flat dest0 rest (o ++ [decodeRow p]) s true
    | .commandComplete => execLoop decodeRow flat dest0 rest o s gotData
    | .readyForCommand => execLoop decodeRow flat dest0 rest o s gotData
    | .errorResponse e =>
      { result := .error (.serverErr e)
        manyDest := if flat then dest0 else []
        singleDest := s }
    | .unknown t =>
      { result := .error (.panicUnexpected t)
        manyDest := if flat then dest0 else []
        singleDest := s }

/-- `Client.execute`: response handling of the pessimistic `Execute`
round trip.  For a non-flat query `out.SetLen(0)` truncates the
destination before the loop, so the working slice starts empty. -/
def execute {Row : Type} (decodeRow : Bytes → Row) (q : Query) (msgs : List RespMsg)
    (dest0 : List Row) (single0 : Row) : ExecOut Row :=
  execLoop decodeRow q.flat dest0 msgs (if q.flat then dest0 else []) single0 false

/-- `Client.optimistic`: response handling of the single-round-trip
`OptimisticExecute` path; its message loop is line-for-line the one of
`execute` (only the skipping of the already-framed header bytes differs). -/
def optimistic {Row : Type} (decodeRow : Bytes → Row) (q : Query) (msgs : List RespMsg)
    (dest0 : List Row) (single0 : Row) : ExecOut Row :=
  execLoop decodeRow q.flat dest0 msgs (if q.flat then dest0 else []) single0 false

/-- A response message that is neither a row nor an error: what a
zero-result successful stream is made of. -/
def isNonRow : RespMsg → Bool
  | .commandComplete => true
  | .readyForCommand => true
  | _ => false

/-- A response message that does not abort the loop (no `ErrorResponse`,
no unrecognized type). -/
def isBenign : RespMsg → Bool
  | .errorResponse _ => false
  | .unknown _ => false
  | _ => true

/-- The row payloads of a response stream, in order. -/
def dataPayloads : List RespMsg → List Bytes
  | [] => []
  | .data p :: rest => p :: dataPayloads rest
  | _ :: rest => dataPayloads rest

/-- Request messages sent by the execution flow, by message type. -/
inductive ReqMsg where
  | prepareMsg
  | describeStatementMsg
  | executeMsg
  | optimisticExecuteMsg
  deriving DecidableEq, Repr

/-- The observable behaviour of one `granularFlow` call: the request
messages written to the connection, in order, and the codec pair used for
the execution (none when codec building failed and the call aborted). -/
structure FlowOut (C : Type) where
  sent : List ReqMsg
  used : Option C
  deriving Repr

/-- `Client.pesimistic`: send `Prepare`; consult the descriptor-by-ID
cache with the returned ID pair; on a miss, send `DescribeStatement` to
obtain the descriptors; build codecs for the query and output shape and,
on success, send `Execute`. -/
def pesimistic {Qt Tp C D I : Type}
    (buildCodecs : Qt → Tp → D → Except String C)
    (getDescriptorsByID : I → Option D)
    (prepareIds : I) (describeDescs : D)
    (q : Qt) (tp : Tp) : FlowOut C :=
  match getDescriptorsByID prepareIds with
  | some descs =>
    match buildCodecs q tp descs with
    | .error _ => { sent := [.prepareMsg], used := none }
    | .ok cdcs => { sent := [.prepareMsg, .executeMsg], used := some cdcs }
  | none =>
    match buildCodecs q tp describeDescs with
    | .error _ => { sent := [.prepareMsg, .describeStatementMsg], used := none }
    | .ok cdcs =>
      { sent := [.prepareMsg, .describeStatementMsg, .executeMsg], used := some cdcs }

/-- `Client.granularFlow`: consult the codec cache keyed by (query,
output shape); on a hit run `optimistic` with the cached codecs.
Otherwise consult the descriptor cache keyed by the query; on a hit build
fresh codecs for this output shape from the cached descriptors and run
`optimistic`.  Only when both lookups miss fall back to `pesimistic`.
The cache lookups, the codec builder and the server-provided values of
the pessimistic round trips are passed in as functions/values. -/
def granularFlow {Qt Tp C D I : Type}
    (getCodecs : Qt → Tp → Option C)
    (getDescriptors : Qt → Option D)
    (buildCodecs : Qt → Tp → D → Except String C)
    (getDescriptorsByID : I → Option D)
    (prepareIds : I) (describeDescs : D)
    (q : Qt) (tp : Tp) : FlowOut C :=
  match getCodecs q tp with
  | some cdcs => { sent := [.optimisticExecuteMsg], used := some cdcs }
  | none =>
    match getDescriptors q with
    | some descs =>
      match buildCodecs q tp descs with
      | .error _ => { sent := [], used := none }
      | .ok cdcs => { sent := [.optimisticExecuteMsg], used := some cdcs }
    | none =>
      pesimistic buildCodecs getDescriptorsByID prepareIds describeDescs q tp

theorem execLoop_no_data {Row : Type} (decodeRow : Bytes → Row) (flat : Bool)
    (dest0 : List Row) :
    ∀ (msgs : List RespMsg), (∀ m ∈ msgs, isNonRow m = true) →
    ∀ (o : List Row) (s : Row),
      (execLoop decodeRow flat dest0 msgs o s false).result = .error .zeroResults
  | [], _, o, s => rfl
  | m :: rest, h, o, s => by
    have hm := h m (List.mem_cons_self m rest)
    have hrest : ∀ x ∈ rest, isNonRow x = true := fun x hx => h x (List.mem_cons_of_mem m hx)
    cases m with
    | commandComplete => exact execLoop_no_data decodeRow flat dest0 rest hrest o s
    | readyForCommand => exact execLoop_no_data decodeRow flat dest0 rest hrest o s
    | data p => simp [isNonRow] at hm
    | errorResponse e => simp [isNonRow] at hm
    | unknown t => simp [isNonRow] at hm

theorem execLoop_many_dest {Row : Type} (decodeRow : Bytes → Row) (dest0 : List Row) :
    ∀ (msgs : List RespMsg), (∀ m ∈ msgs, isBenign m = true) →
    ∀ (o : List Row) (s : Row) (g : Bool),
      (execLoop decodeRow false dest0 msgs o s g).manyDest
        = o ++ (dataPayloads msgs).map decodeRow
  | [], _, o, s, g => by simp [execLoop, dataPayloads]
  | m :: rest, h, o, s, g => by
    have hm := h m (List.mem_cons_self m rest)
    have hrest : ∀ x ∈ rest, isBenign x = true := fun x hx => h x (List.mem_cons_of_mem m hx)
    cases m with
    | data p =>
      rw [show execLoop decodeRow false dest0 (RespMsg.data p :: rest) o s g
          = execLoop decodeRow false dest0 rest (o ++ [decodeRow p]) s true from rfl]
      rw [execLoop_many_dest decodeRow dest0 rest hrest (o ++ [decodeRow p]) s true]
      simp [dataPayloads]
    | commandComplete =>
      exact execLoop_many_dest decodeRow dest0 rest hrest o s g
    | readyForCommand =>
      exact execLoop_many_dest decodeRow dest0 rest hrest o s g
    | errorResponse e => simp [isBenign] at hm
    | unknown t => simp [isBenign] at hm

theorem execLoop_flat_tail {Row : Type} (decodeRow : Bytes → Row) (dest0 : List Row) :
    ∀ (msgs : List RespMsg), (∀ m ∈ msgs, isNonRow m = true) →
    ∀ (o : List Row) (s : Row),
      execLoop decodeRow true dest0 msgs o s true
        = { result := .ok (), manyDest := dest0, singleDest := s }
  | [], _, o, s => rfl
  | m :: rest, h, o, s => by
    have hm := h m (List.mem_cons_self m rest)
    have hrest : ∀ x ∈ rest, isNonRow x = true := fun x hx => h x (List.mem_cons_of_mem m hx)
    cases m with
    | commandComplete => exact execLoop_flat_tail decodeRow dest0 rest hrest o s
    | readyForCommand => exact execLoop_flat_tail decodeRow dest0 rest hrest o s
    | data p => simp [isNonRow] at hm
    | errorResponse e => simp [isNonRow] at hm
    | unknown t => simp [isNonRow] at hm

theorem execLoop_flat_last {Row : Type} (decodeRow : Bytes → Row) (dest0 : List Row)
    (p : Bytes) (post : List RespMsg) (hpost : ∀ m ∈ post, isNonRow m = true) :
    ∀ (pre : List RespMsg), (∀ m ∈ pre, isBenign m = true) →
    ∀ (o : List Row) (s : Row) (g : Bool),
      execLoop decodeRow true dest0 (pre ++ RespMsg.data p :: post) o s g
        = { result := .ok (), manyDest := dest0, singleDest := decodeRow p }
  | [], _, o, s, g => by
    rw [List.nil_append]
    rw [show execLoop decodeRow true dest0 (RespMsg.data p :: post) o s g
        = execLoop decodeRow true dest0 post o (decodeRow p) true from rfl]
    exact execLoop_flat_tail decodeRow dest0 post hpost o (decodeRow p)
  | m :: pre, h, o, s, g => by
    have hm := h m (List.mem_cons_self m pre)
    have hpre : ∀ x ∈ pre, isBenign x = true := fun x hx => h x (List.mem_cons_of_mem m hx)
    cases m with
    | data r =>
      rw [List.cons_append]
      exact execLoop_flat_last decodeRow dest0 p post hpost pre hpre o (decodeRow r) true
    | commandComplete =>
      rw [List.cons_append]
      exact execLoop_flat_last decodeRow dest0 p post hpost pre hpre o s g
    | readyForCommand =>
      rw [List.cons_append]
      exact execLoop_flat_last decodeRow dest0 p post hpost pre hpre o s g
    | errorResponse e => simp [isBenign] at hm
    | unknown t => simp [isBenign] at hm

/-- C1 (counterexample): a cardinality-"many" query whose response stream
carries zero `Data` messages also returns `ErrorZeroResults` — `execute`
sets `err = ErrorZeroResults` before the message loop regardless of the
expected cardinality, so the distinguished zero-results error is not tied
to cardinality "one" as the claim states. -/
theorem zero_results_regardless_counterexample :
    (execute (fun _ => (0 : Nat)) { expCard := Card.many }
      [RespMsg.commandComplete, RespMsg.readyForCommand] [] 0).result
      = Except.error FlowErr.zeroResults := rfl

/-- C1 (amended): for every query executed through `execute` or
`optimistic`, if zero `Data` messages arrive (a stream of only
`CommandComplete`/`ReadyForCommand`), the call returns the distinguished
`ErrorZeroResults` — regardless of the expected cardinality, so in
particular for cardinality "one" — and that error is distinct from every
decoded server error. -/
theorem zero_results_any_cardinality {Row : Type} (decodeRow : Bytes → Row) (q : Query)
    (msgs : List RespMsg) (dest0 : List Row) (single0 : Row)
    (h : ∀ m ∈ msgs, isNonRow m = true) :
    (execute decodeRow q msgs dest0 single0).result = .error .zeroResults
    ∧ (optimistic decodeRow q msgs dest0 single0).result = .error .zeroResults
    ∧ ∀ e, FlowErr.zeroResults ≠ FlowErr.serverErr e := by
  refine ⟨?_, ?_, fun e h2 => by cases h2⟩
  · exact execLoop_no_data decodeRow q.flat dest0 msgs h _ single0
  · exact execLoop_no_data decodeRow q.flat dest0 msgs h _ single0

theorem zero_results_any_cardinality_witness :
    (execute (fun _ => (0 : Nat)) { expCard := Card.one }
      [RespMsg.commandComplete, RespMsg.readyForCommand] [] 0).result
      = Except.error FlowErr.zeroResults
    ∧ FlowErr.zeroResults ≠ FlowErr.serverErr 3 := by
  have h := zero_results_any_cardinality (fun _ => (0 : Nat)) { expCard := Card.one }
    [RespMsg.commandComplete, RespMsg.readyForCommand] [] 0 (by decide)
  exact ⟨h.1, h.2.2 3⟩

/-- C5: for every query with cardinality "many", the destination is
truncated to length zero before decoded rows are appended, so the final
destination is exactly the decoded rows of this call whatever the
destination held before; running the same call twice into the same
destination leaves no residue: after the second (successful) call the
destination length equals exactly the row count of the second call. -/
theorem many_truncates_destination {Row : Type} (decodeRow : Bytes → Row) (q : Query)
    (hq : q.expCard = Card.many) (msgs1 msgs2 : List RespMsg)
    (dest0 : List Row) (single0 : Row)
    (h2 : ∀ m ∈ msgs2, isBenign m = true) :
    (∀ (d0 : List Row) (s0 : Row),
      (execute decodeRow q msgs2 d0 s0).manyDest = (dataPayloads msgs2).map decodeRow)
    ∧ ((execute decodeRow q msgs2
        (execute decodeRow q msgs1 dest0 single0).manyDest
        (execute decodeRow q msgs1 dest0 single0).singleDest).manyDest.length
      = (dataPayloads msgs2).length)
    ∧ (∀ (d0 : List Row) (s0 : Row),
      (optimistic decodeRow q msgs2 d0 s0).manyDest = (dataPayloads msgs2).map decodeRow) := by
  have hflat : q.flat = false := by simp [Query.flat, hq]
  have key : ∀ (d0 : List Row) (s0 : Row),
      (execute decodeRow q msgs2 d0 s0).manyDest = (dataPayloads msgs2).map decodeRow := by
    intro d0 s0
    unfold execute
    rw [hflat]
    simpa using execLoop_many_dest decodeRow d0 msgs2 h2 [] s0 false
  refine ⟨key, ?_, key⟩
  rw [key]
  simp

theorem many_truncates_destination_witness :
    ((execute (fun b => b.length) { expCard := Card.many }
        [RespMsg.data [1], RespMsg.commandComplete, RespMsg.readyForCommand]
        (execute (fun b => b.length) { expCard := Card.many }
          [RespMsg.data [], RespMsg.data [5, 6], RespMsg.readyForCommand] [9, 9, 9] 0).manyDest
        (execute (fun b => b.length) { expCard := Card.many }
          [RespMsg.data [], RespMsg.data [5, 6], RespMsg.readyForCommand] [9, 9, 9] 0).singleDest
      ).manyDest.length
      = (dataPayloads [RespMsg.data [1], RespMsg.commandComplete,
          RespMsg.readyForCommand]).length) := by
  exact (many_truncates_destination (fun b => b.length) { expCard := Card.many } rfl
    [RespMsg.data [], RespMsg.data [5, 6], RespMsg.readyForCommand]
    [RespMsg.data [1], RespMsg.commandComplete, RespMsg.readyForCommand]
    [9, 9, 9] 0 (by decide)).2.1

/-- C10: for a flat (cardinality "one") query, a response stream with
more than one `Data` message does not fail: each row is decoded directly
into the same destination, overwriting the previous value, and the call
returns success with the destination holding the last row received
(both on the `execute` and the `optimistic` path). -/
theorem flat_last_row_wins {Row : Type} (decodeRow : Bytes → Row) (q : Query)
    (hq : q.expCard = Card.one) (pre post : List RespMsg) (p : Bytes)
    (dest0 : List Row) (single0 : Row)
    (hpre : ∀ m ∈ pre, isBenign m = true)
    (hpost : ∀ m ∈ post, isNonRow m = true) :
    (execute decodeRow q (pre ++ RespMsg.data p :: post) dest0 single0).result = .ok ()
    ∧ (execute decodeRow q (pre ++ RespMsg.data p :: post) dest0 single0).singleDest
        = decodeRow p
    ∧ (optimistic decodeRow q (pre ++ RespMsg.data p :: post) dest0 single0).result = .ok ()
    ∧ (optimistic decodeRow q (pre ++ RespMsg.data p :: post) dest0 single0).singleDest
        = decodeRow p := by
  have hflat : q.flat = true := by simp [Query.flat, hq]
  have key : execLoop decodeRow q.flat dest0 (pre ++ RespMsg.data p :: post)
      (if q.flat then dest0 else []) single0 false
      = { result := .ok (), manyDest := dest0, singleDest := decodeRow p } := by
    rw [hflat]
    exact execLoop_flat_last decodeRow dest0 p post hpost pre hpre dest0 single0 false
  exact ⟨by rw [show execute decodeRow q (pre ++ RespMsg.data p :: post) dest0 single0
      = execLoop decodeRow q.flat dest0 (pre ++ RespMsg.data p :: post)
        (if q.flat then dest0 else []) single0 false from rfl, key],
    by rw [show execute decodeRow q (pre ++ RespMsg.data p :: post) dest0 single0
      = execLoop decodeRow q.flat dest0 (pre ++ RespMsg.data p :: post)
        (if q.flat then dest0 else []) single0 false from rfl, key],
    by rw [show optimistic decodeRow q (pre ++ RespMsg.data p :: post) dest0 single0
      = execLoop decodeRow q.flat dest0 (pre ++ RespMsg.data p :: post)
        (if q.flat then dest0 else []) single0 false from rfl, key],
    by rw [show optimistic decodeRow q (pre ++ RespMsg.data p :: post) dest0 single0
      = execLoop decodeRow q.flat dest0 (pre ++ RespMsg.data p :: post)
        (if q.flat then dest0 else []) single0 false from rfl, key]⟩

theorem flat_last_row_wins_witness :
    (execute (fun b => b.length) { expCard := Card.one }
      ([RespMsg.data [7]] ++ RespMsg.data [1, 2] :: [RespMsg.commandComplete,
        RespMsg.readyForCommand]) [] 0).result = .ok ()
    ∧ (execute (fun b => b.length) { expCard := Card.one }
      ([RespMsg.data [7]] ++ RespMsg.data [1, 2] :: [RespMsg.commandComplete,
        RespMsg.readyForCommand]) [] 0).singleDest = 2 := by
  have h := flat_last_row_wins (fun b => b.length) { expCard := Card.one } rfl
    [RespMsg.data [7]] [RespMsg.commandComplete, RespMsg.readyForCommand] [1, 2]
    [] 0 (by decide) (by decide)
  exact ⟨h.1, h.2.1⟩


/-- C4: `granularFlow` on a codec-cache hit takes the optimistic path
with the cached codecs and sends neither `Prepare` nor
`DescribeStatement`; on a codec-cache miss with a descriptor-cache hit it
builds fresh codecs for this query and output shape from the cached
descriptors (the codecs used are exactly `buildCodecs q tp d`, never
another shape's cache entry) and still sends no `Prepare`/
`DescribeStatement`; a `Prepare` or `DescribeStatement` message is sent
only when both caches miss, in which case the call runs the pessimistic
cycle (`Prepare`, then — when the descriptor-by-ID cache also misses —
`DescribeStatement`, then `Execute`). -/
theorem granularFlow_cache_paths {Qt Tp C D I : Type}
    (gc : Qt → Tp → Option C) (gd : Qt → Option D)
    (bc : Qt → Tp → D → Except String C)
    (gid : I → Option D) (ids : I) (dd : D) (q : Qt) (tp : Tp) :
    (∀ c, gc q tp = some c →
      granularFlow gc gd bc gid ids dd q tp
        = { sent := [.optimisticExecuteMsg], used := some c })
    ∧ (∀ d, gc q tp = none → gd q = some d →
      (granularFlow gc gd bc gid ids dd q tp).used = (bc q tp d).toOption
      ∧ ReqMsg.prepareMsg ∉ (granularFlow gc gd bc gid ids dd q tp).sent
      ∧ ReqMsg.describeStatementMsg ∉ (granularFlow gc gd bc gid ids dd q tp).sent)
    ∧ (ReqMsg.prepareMsg ∈ (granularFlow gc gd bc gid ids dd q tp).sent ∨
        ReqMsg.describeStatementMsg ∈ (granularFlow gc gd bc gid ids dd q tp).sent →
      gc q tp = none ∧ gd q = none)
    ∧ (gc q tp = none → gd q = none →
      granularFlow gc gd bc gid ids dd q tp = pesimistic bc gid ids dd q tp
      ∧ (gid ids = none →
        (granularFlow gc gd bc gid ids dd q tp).sent
          = match bc q tp dd with
            | .ok _ => [.prepareMsg, .describeStatementMsg, .executeMsg]
            | .error _ => [.prepareMsg, .describeStatementMsg])) := by
  refine ⟨?_, ?_, ?_, ?_⟩
  · intro c hc
    simp [granularFlow, hc]
  · intro d hc hd
    simp only [granularFlow, hc, hd]
    cases bc q tp d with
    | error e => exact ⟨rfl, by simp, by simp⟩
    | ok cdcs => exact ⟨rfl, by simp, by simp⟩
  · intro hmem
    cases hc : gc q tp with
    | some c =>
      rw [(by simp [granularFlow, hc] :
        granularFlow gc gd bc gid ids dd q tp
          = { sent := [.optimisticExecuteMsg], used := some c })] at hmem
      simp at hmem
    | none =>
      cases hd : gd q with
      | some d =>
        refine absurd hmem ?_
        simp only [granularFlow, hc, hd]
        cases bc q tp d with
        | error e => simp
        | ok cdcs => simp
      | none => exact ⟨rfl, rfl⟩
  · intro hc hd
    refine ⟨by simp [granularFlow, hc, hd], ?_⟩
    intro hgid
    simp only [granularFlow, hc, hd, pesimistic, hgid]
    cases bc q tp dd with
    | error e => rfl
    | ok cdcs => rfl

theorem granularFlow_cache_paths_witness :
    granularFlow (fun (_ : Nat) (_ : Nat) => some (7 : Nat)) (fun _ => (none : Option Nat))
      (fun _ _ d => Except.ok d) (fun (_ : Nat) => (none : Option Nat)) 0 5 1 2
      = { sent := [ReqMsg.optimisticExecuteMsg], used := some 7 }
    ∧ (granularFlow (fun (_ : Nat) (_ : Nat) => (none : Option Nat))
        (fun _ => (none : Option Nat)) (fun _ _ d => Except.ok d)
        (fun (_ : Nat) => (none : Option Nat)) 0 5 1 2).sent
      = [ReqMsg.prepareMsg, ReqMsg.describeStatementMsg, ReqMsg.executeMsg] := by
  constructor
  · exact (granularFlow_cache_paths _ _ _ _ _ _ _ _).1 7 rfl
  · have h := (granularFlow_cache_paths (fun (_ : Nat) (_ : Nat) => (none : Option Nat))
      (fun _ => (none : Option Nat)) (fun _ _ d => Except.ok d)
      (fun (_ : Nat) => (none : Option Nat)) 0 5 1 2).2.2.2 rfl rfl
    exact h.2 rfl


/-! ## Script flow (`scriptflow.go`) -/

/-- One message of the `ExecuteScript` response stream; `other` stands for
any message type handled by `fallThrough`. -/
inductive ScriptMsg where
  | commandComplete
  | readyForCommand
  | errorResponse (e : Nat)
  | other (t : Nat)
  deriving DecidableEq, Repr

/-- How `execScriptFlow` returns: the `errStateNotSupported` guard, the
reader error `r.Err` (transport), the fatal `fallThrough` error on an
unrecognized message, or a normal return whose value is the `wrapAll`
accumulation of the decoded `ErrorResponse` errors (empty list = `nil`). -/
inductive ScriptResult where
  | stateNotSupported
  | transport (t : Nat)
  | fatalMsg (t : Nat)
  | completed (errs : List Nat)
  deriving DecidableEq, Repr

/-- The query data relevant to `execScriptFlow`: the command text and the
session state (`q.state`). -/
structure SQuery where
  cmd : String
  state : List Nat
  deriving DecidableEq, Repr

/-- A request message written by the script flow. -/
inductive ScriptReq where
  | executeScript (cmd : String)
  deriving DecidableEq, Repr

/-- The observable behaviour of one `execScriptFlow` call: the request
messages written, how many response messages were read from the stream,
and the returned value. -/
structure ScriptOut where
  written : List ScriptReq
  consumed : Nat
  result : ScriptResult
  deriving DecidableEq, Repr

/-- The return value after the message loop exits: `r.Err` if the reader
failed, otherwise the accumulated error. -/
def finishScript (rErr : Option Nat) (errs : List Nat) : ScriptResult :=
  match rErr with
  | some t => .transport t
  | none => .completed errs

/-- The `r.Next` message loop of `execScriptFlow`: `CommandComplete` is
decoded and skipped; `ReadyForCommand` signals `done`, so the next
`r.Next` returns false and the loop exits — everything up to and
including it has been consumed, nothing after it; `ErrorResponse` is
decoded and accumulated with `wrapAll`, and the loop keeps draining; an
unrecognized message returns the fatal `fallThrough` error at once. -/
def scriptLoop (rErr : Option Nat) : List ScriptMsg → List Nat → Nat → Nat × ScriptResult
  | [], errs, n => (n, finishScript rErr errs)
  | m :: ms, errs, n =>
    match m with
    | .commandComplete => scriptLoop rErr ms errs (n + 1)
    | .readyForCommand => (n + 1, finishScript rErr errs)
    | .errorResponse e => scriptLoop rErr ms (errs ++ [e]) (n + 1)
    | .other t => (n + 1, .fatalMsg t)

/-- `protocolConnection.execScriptFlow`: refuse non-empty session state
with `errStateNotSupported` before anything is written to the connection;
otherwise write the `ExecuteScript` message and run the response loop. -/
def execScriptFlow (q : SQuery) (rErr : Option Nat) (msgs : List ScriptMsg) : ScriptOut :=
  if q.state.length ≠ 0 then
    { written := [], consumed := 0, result := .stateNotSupported }
  else
    { written := [.executeScript q.cmd]
      consumed := (scriptLoop rErr msgs [] 0).1
      result := (scriptLoop rErr msgs [] 0).2 }

theorem scriptLoop_cc (rErr : Option Nat) :
    ∀ (ccs : List ScriptMsg), (∀ m ∈ ccs, m = ScriptMsg.commandComplete) →
    ∀ (rest : List ScriptMsg) (errs : List Nat) (n : Nat),
      scriptLoop rErr (ccs ++ rest) errs n = scriptLoop rErr rest errs (n + ccs.length)
  | [], _, rest, errs, n => by simp
  | m :: ms, h, rest, errs, n => by
    have hm := h m (List.mem_cons_self m ms)
    subst hm
    rw [List.cons_append,
      show scriptLoop rErr (ScriptMsg.commandComplete :: (ms ++ rest)) errs n
        = scriptLoop rErr (ms ++ rest) errs (n + 1) from rfl,
      scriptLoop_cc rErr ms (fun x hx => h x (List.mem_cons_of_mem _ hx)) rest errs (n + 1)]
    congr 1
    simp
    omega

/-- C9: for every query whose session state is non-empty, `execScriptFlow`
returns `errStateNotSupported` before writing any bytes to the connection
and before consuming any response message, leaving the connection state
unchanged. -/
theorem state_not_supported_early (q : SQuery) (rErr : Option Nat)
    (msgs : List ScriptMsg) (h : q.state ≠ []) :
    execScriptFlow q rErr msgs
      = { written := [], consumed := 0, result := .stateNotSupported } := by
  unfold execScriptFlow
  rw [if_pos (by simpa using h)]

theorem state_not_supported_early_witness :
    execScriptFlow { cmd := "select 1;", state := [7] } none
        [ScriptMsg.readyForCommand]
      = { written := [], consumed := 0, result := ScriptResult.stateNotSupported } :=
  state_not_supported_early { cmd := "select 1;", state := [7] } none
    [ScriptMsg.readyForCommand] (by decide)

/-- C8: when the response stream contains an `ErrorResponse`, the script
flow decodes it into a structured error and still drains the remainder of
the stream up to and including `ReadyForCommand` (the consumed count
covers every message through it, and nothing after it) before returning;
the value returned is the decoded server error, not a transport or
framing error. -/
theorem error_response_drains (cmd : String) (e : Nat) (pre mid post : List ScriptMsg)
    (hpre : ∀ m ∈ pre, m = ScriptMsg.commandComplete)
    (hmid : ∀ m ∈ mid, m = ScriptMsg.commandComplete) :
    execScriptFlow { cmd := cmd, state := [] } none
        (pre ++ ScriptMsg.errorResponse e :: (mid ++ ScriptMsg.readyForCommand :: post))
      = { written := [.executeScript cmd]
          consumed := pre.length + mid.length + 2
          result := .completed [e] } := by
  have key : scriptLoop none
      (pre ++ ScriptMsg.errorResponse e :: (mid ++ ScriptMsg.readyForCommand :: post)) [] 0
      = (pre.length + mid.length + 2, ScriptResult.completed [e]) := by
    rw [scriptLoop_cc none pre hpre,
      show scriptLoop none
          (ScriptMsg.errorResponse e :: (mid ++ ScriptMsg.readyForCommand :: post)) []
          (0 + pre.length)
        = scriptLoop none (mid ++ ScriptMsg.readyForCommand :: post) [e]
          (0 + pre.length + 1) from rfl,
      scriptLoop_cc none mid hmid,
      show scriptLoop none (ScriptMsg.readyForCommand :: post) [e]
          (0 + pre.length + 1 + mid.length)
        = (0 + pre.length + 1 + mid.length + 1, ScriptResult.completed [e]) from rfl]
    congr 1
    omega
  unfold execScriptFlow
  rw [if_neg (by simp)]
  rw [key]

theorem error_response_drains_witness :
    execScriptFlow { cmd := "select 1;", state := [] } none
        ([ScriptMsg.commandComplete] ++ ScriptMsg.errorResponse 42 ::
          ([] ++ ScriptMsg.readyForCommand :: [ScriptMsg.other 9]))
      = { written := [ScriptReq.executeScript "select 1;"]
          consumed := 1 + 0 + 2
          result := ScriptResult.completed [42] } :=
  error_response_drains "select 1;" 42 [ScriptMsg.commandComplete] []
    [ScriptMsg.other 9] (by decide) (by decide)


/-! ## Codec construction (`buildObjectDecoder` and `optionalTypeNameLookup`) -/

/-- The dynamic type of a decoder returned by `BuildDecoder`, as used as
key of `optionalTypeNameLookup` and by the `OptionalDecoder` interface
check.  The kinds are the decoder types named in the source:
the keys of the lookup table plus `optionalObjectDecoder`. -/
inductive CodecKind where
  | boolCodec
  | bytesCodec
  | dateTimeCodec
  | localDateTimeCodec
  | localDateCodec
  | localTimeCodec
  | durationCodec
  | relativeDurationCodec
  | namedTupleDecoderK
  | int16Codec
  | int32CodecK
  | int64Codec
  | float32Codec
  | float64Codec
  | bigIntCodec
  | objectDecoderK
  | strCodecK
  | tupleDecoderK
  | uuidCodec
  | optionalObjectDecoderK
  deriving DecidableEq, Repr

/-- The fixed `optionalTypeNameLookup` table: for each non-optional codec
type, the built-in optional wrapper type that would satisfy a
non-required field. -/
def optionalTypeNameLookup : CodecKind → Option String
  | .boolCodec => some "edgedb.OptionalBool"
  | .bytesCodec => some "edgedb.OptionalBytes"
  | .dateTimeCodec => some "edgedb.OptionalDateTime"
  | .localDateTimeCodec => some "edgedb.OptionalLocalDateTime"
  | .localDateCodec => some "edgedb.OptionalLocalDate"
  | .localTimeCodec => some "edgedb.OptionalLocalTime"
  | .durationCodec => some "edgedb.OptionalDuration"
  | .relativeDurationCodec => some "edgedb.OptionalRelativeDuration"
  | .namedTupleDecoderK => some "edgedb.Optional"
  | .int16Codec => some "edgedb.OptionalInt16"
  | .int32CodecK => some "edgedb.OptionalInt32"
  | .int64Codec => some "edgedb.OptionalInt64"
  | .float32Codec => some "edgedb.OptionalFloat32"
  | .float64Codec => some "edgedb.OptionalFloat64"
  | .bigIntCodec => some "edgedb.OptionalBigInt"
  | .objectDecoderK => some "edgedb.Optional"
  | .strCodecK => some "edgedb.OptionalStr"
  | .tupleDecoderK => some "edgedb.Optional"
  | .uuidCodec => some "edgedb.OptionalUUID"
  | .optionalObjectDecoderK => none

/-- Whether the decoder type satisfies the `OptionalDecoder` interface.
None of the lookup-table key types does (the table exists to name their
replacements); `optionalObjectDecoder` does. -/
def kindIsOptional : CodecKind → Bool
  | .optionalObjectDecoderK => true
  | _ => false

/-- One field of an object type descriptor: its name and required flag. -/
structure DescField where
  name : String
  required : Bool
  deriving DecidableEq, Repr

/-- `introspect.StructField`: look the named field up in the output
struct type, returning its type name (used in the error message). -/
def structField (typFields : List (String × String)) (nm : String) : Option String :=
  (typFields.find? (fun p => p.1 = nm)).map (·.2)

/-- Structured errors of `buildObjectDecoder`.  `notOptional` carries the
pieces of the error `"expected %v at %v.%v to be %v because the field is
not required"`: the output field type, the path, the field name, and the
wrapper type name obtained from `optionalTypeNameLookup` (defaulting to
the `OptionalUnmarshaler` interface for a type outside the table). -/
inductive BuildErr where
  | missingStructField (path nm : String)
  | childFailed (msg : String)
  | notOptional (fieldTy path fieldName wantTy : String)
  deriving DecidableEq, Repr

/-- The field loop of `buildObjectDecoder`: for each descriptor field,
find the struct field by name, build the child decoder, and — when the
descriptor marks the field not required but the child decoder is not an
`OptionalDecoder` — fail with the `notOptional` error naming the wrapper
type from the fixed lookup table. -/
def buildObjectDecoder (typFields : List (String × String))
    (buildChild : String → Except String CodecKind) (path : String) :
    List DescField → Except BuildErr (List (String × CodecKind))
  | [] => .ok []
  | f :: rest =>
    match structField typFields f.name with
    | none => .error (.missingStructField path f.name)
    | some ty =>
      match buildChild f.name with
      | .error e => .error (.childFailed e)
      | .ok child =>
        if !f.required && !kindIsOptional child then
          .error (.notOptional ty path f.name
            ((optionalTypeNameLookup child).getD "OptionalUnmarshaler interface"))
        else
          (buildObjectDecoder typFields buildChild path rest).map
            (fun fs => (f.name, child) :: fs)

/-- A descriptor field that passes all checks of the loop body: the
struct field exists, the child decoder builds, and the field is required
or its decoder supports missing. -/
def fieldOk (typFields : List (String × String))
    (buildChild : String → Except String CodecKind) (f : DescField) : Bool :=
  (structField typFields f.name).isSome &&
    match buildChild f.name with
    | .ok k => f.required || kindIsOptional k
    | .error _ => false

/-- C6: for every object descriptor field marked not required whose
output decoder is not an `OptionalDecoder` (and whose predecessors all
pass), codec construction fails with an error naming the path, the field
and the specific built-in optional wrapper type from the fixed lookup
table; the table covers every non-optional decoder kind, so the named
type always comes from it. -/
theorem build_not_optional_names_wrapper (typFields : List (String × String))
    (buildChild : String → Except String CodecKind) (path : String)
    (f : DescField) (post : List DescField) (ty : String) (k : CodecKind)
    (hreq : f.required = false) (hty : structField typFields f.name = some ty)
    (hchild : buildChild f.name = .ok k) (hopt : kindIsOptional k = false) :
    (∀ pre : List DescField, (∀ g ∈ pre, fieldOk typFields buildChild g = true) →
      ∃ wantTy, optionalTypeNameLookup k = some wantTy ∧
        buildObjectDecoder typFields buildChild path (pre ++ f :: post)
          = .error (.notOptional ty path f.name wantTy))
    ∧ (∀ k2, kindIsOptional k2 = false → (optionalTypeNameLookup k2).isSome = true) := by
  have htotal : ∀ k2, kindIsOptional k2 = false → (optionalTypeNameLookup k2).isSome = true := by
    intro k2 h2
    cases k2 <;> simp_all [optionalTypeNameLookup, kindIsOptional]
  refine ⟨?_, htotal⟩
  have hbase : ∃ wantTy, optionalTypeNameLookup k = some wantTy ∧
      buildObjectDecoder typFields buildChild path (f :: post)
        = .error (.notOptional ty path f.name wantTy) := by
    obtain ⟨wantTy, hw⟩ := Option.isSome_iff_exists.mp (htotal k hopt)
    refine ⟨wantTy, hw, ?_⟩
    simp only [buildObjectDecoder, hty, hchild, hreq, hopt]
    simp [hw]
  intro pre
  induction pre with
  | nil => intro _; simpa using hbase
  | cons g pre ih =>
    intro hok
    have hg := hok g (List.mem_cons_self g pre)
    have hrest : ∀ x ∈ pre, fieldOk typFields buildChild x = true :=
      fun x hx => hok x (List.mem_cons_of_mem _ hx)
    obtain ⟨wantTy, hw, hres⟩ := ih hrest
    refine ⟨wantTy, hw, ?_⟩
    simp only [fieldOk, Bool.and_eq_true, Option.isSome_iff_exists] at hg
    obtain ⟨⟨ty2, hty2⟩, hg2⟩ := hg
    rw [List.cons_append]
    cases hc : buildChild g.name with
    | error e => rw [hc] at hg2; simp at hg2
    | ok k2 =>
      rw [hc] at hg2
      have hg3 : (g.required || kindIsOptional k2) = true := by simpa using hg2
      simp only [buildObjectDecoder, hty2, hc]
      rw [if_neg (fun h => by
        simp only [Bool.and_eq_true, Bool.not_eq_true'] at h
        simp [h.1, h.2] at hg3)]
      rw [hres]
      rfl

theorem build_not_optional_names_wrapper_witness :
    (∃ wantTy, optionalTypeNameLookup CodecKind.strCodecK = some wantTy ∧
      buildObjectDecoder [("a", "int64"), ("b", "string")]
        (fun nm => if nm = "a" then .ok CodecKind.int64Codec else .ok CodecKind.strCodecK)
        "codecs.Result"
        ([{ name := "a", required := true }] ++ { name := "b", required := false } :: [])
        = .error (.notOptional "string" "codecs.Result" "b" wantTy))
    ∧ (∀ k2, kindIsOptional k2 = false → (optionalTypeNameLookup k2).isSome = true) := by
  have h := build_not_optional_names_wrapper [("a", "int64"), ("b", "string")]
    (fun nm => if nm = "a" then .ok CodecKind.int64Codec else .ok CodecKind.strCodecK)
    "codecs.Result" { name := "b", required := false } [] "string" CodecKind.strCodecK
    rfl (by decide) (by simp) (by decide)
  exact ⟨h.1 [{ name := "a", required := true }] (by decide), h.2⟩

end Edb
